import Mathlib

set_option maxHeartbeats 1000000

/-!
Verification of the cli-config-manager dotfile tool (Go).

The filesystem is modelled as a partial map from absolute paths (lists of
components) to nodes (regular file, directory, symbolic link).  Each Go
operation of the `manager` package is translated into a pure function over
this model; external subprocess calls (git, gh) are abstracted as boolean
oracles passed in as parameters.
-/

namespace CliConfigManager

/-- Absolute filesystem paths, as lists of path components. -/
abbrev Path := List String

/-- Errors surfaced by the modelled filesystem operations. -/
inductive FsErr
  | notFound
  | alreadyExists
  | notDir
  | isDir
  | tooManyLinks
  | readFailed
  | parseFailed
  deriving DecidableEq, Repr

/-- BackupMetadata from src/unnamed/part_001 (lines 408-414): identifier,
original absolute path, optional symlink target (empty string in Go becomes
`none`), and a timestamp (modelled as seconds). -/
structure BackupMetadata where
  id : String
  originalPath : Path
  symlinkPath : Option Path
  timestamp : Nat
  deriving DecidableEq, Repr

/-- File contents: raw bytes, or a parsed backup-metadata JSON document.
JSON marshalling and unmarshalling (encoding/json in the source) are
modelled as mutually inverse, so a metadata file stores the record itself;
a `bytes` node fails to unmarshal as metadata. -/
inductive Content
  | bytes (data : List Nat)
  | meta (m : BackupMetadata)
  deriving DecidableEq, Repr

/-- A filesystem node: regular file, directory, or symbolic link with a
recorded target path (os.Symlink stores the target verbatim). -/
inductive Node
  | file (c : Content)
  | dir
  | symlink (target : Path)
  deriving DecidableEq, Repr

/-- A filesystem: a partial map from absolute paths to nodes. -/
abbrev FS := Path → Option Node

/-- Overwrite the node stored at one path. -/
def fsInsert (fs : FS) (p : Path) (n : Node) : FS :=
  fun q => if q = p then some n else fs q

/-- Delete the node stored at one path. -/
def fsErase (fs : FS) (p : Path) : FS :=
  fun q => if q = p then none else fs q

/-- os.RemoveAll: delete the entire subtree rooted at a path (the path
itself and everything below it); removing a missing path is a no-op. -/
def removeAllFS (fs : FS) (p : Path) : FS :=
  fun q => if p <+: q then none else fs q

/-- Resolve a path through chains of symbolic links to the final path the
OS would operate on, with bounded fuel (the final path may not exist). -/
def resolveFinal (fs : FS) : Nat → Path → Option Path
  | 0, _ => none
  | fuel + 1, p =>
    match fs p with
    | some (Node.symlink t) => resolveFinal fs fuel t
    | _ => some p

/-- Linux follows at most 40 nested symbolic links before ELOOP. -/
def linkFuel : Nat := 40

/-- os.Stat: the node at a path after following symbolic links; `none`
corresponds to a not-exist error. -/
def statFS (fs : FS) (p : Path) : Option Node :=
  match resolveFinal fs linkFuel p with
  | some q => fs q
  | none => none

/-- os.ReadFile: the contents of the regular file a path resolves to. -/
def readFileFS (fs : FS) (p : Path) : Option Content :=
  match statFS fs p with
  | some (Node.file c) => some c
  | _ => none

/-- os.WriteFile: write contents at the path a symlink chain resolves to,
creating or truncating the regular file there; writing over a directory
fails. -/
def writeFileFS (fs : FS) (p : Path) (c : Content) : Except FsErr FS :=
  match resolveFinal fs linkFuel p with
  | none => Except.error FsErr.tooManyLinks
  | some q =>
    if fs q = some Node.dir then Except.error FsErr.isDir
    else Except.ok (fsInsert fs q (Node.file c))

/-- Whether an optional node is a symbolic link. -/
def isSymlinkB : Option Node → Bool
  | some (Node.symlink _) => true
  | _ => false

/-- All nonempty prefixes of a path, shortest first, ending with the path
itself: the directories os.MkdirAll visits. -/
def ancestors (p : Path) : List Path :=
  (List.range p.length).map (fun i => p.take (i + 1))

/-- One step of os.MkdirAll: create a directory if nothing is there, skip
an existing directory, fail on an existing non-directory. -/
def mkdirOne (fs : FS) (q : Path) : Except FsErr FS :=
  match fs q with
  | none => Except.ok (fsInsert fs q Node.dir)
  | some Node.dir => Except.ok fs
  | some _ => Except.error FsErr.notDir

/-- os.MkdirAll: create every missing directory on the way to a path. -/
def mkdirAll (fs : FS) (p : Path) : Except FsErr FS :=
  (ancestors p).foldlM mkdirOne fs

/-- os.Symlink target p: create a symbolic link at p recording the target
verbatim; fails if anything already exists at p. -/
def symlinkFS (fs : FS) (target p : Path) : Except FsErr FS :=
  match fs p with
  | some _ => Except.error FsErr.alreadyExists
  | none => Except.ok (fsInsert fs p (Node.symlink target))

/-- One step of path cleaning (filepath.Clean on an absolute path): "." and
empty components vanish, ".." pops the last component (at the root it stays
the root), anything else is appended. -/
def cleanStep (acc : List String) (c : String) : List String :=
  if c = "." ∨ c = "" then acc
  else if c = ".." then acc.dropLast
  else acc ++ [c]

/-- filepath.Clean for an absolute path, componentwise. -/
def cleanAbs (p : Path) : Path :=
  p.foldl cleanStep []

/-- A component that filepath.Clean leaves alone. -/
def plainComp (c : String) : Bool :=
  !(c = "." || c = "" || c = "..")

/-- A relative path whose components are all plain (as produced by walking
a directory tree). -/
def cleanRel (p : Path) : Bool :=
  p.all plainComp

/-- filepath.Join of an absolute path with a relative one: concatenate and
clean. -/
def joinPath (a b : Path) : Path :=
  cleanAbs (a ++ b)

/-- Strip the longest common prefix of two component lists. -/
def stripCommon : List String → List String → List String × List String
  | a :: as, b :: bs => if a = b then stripCommon as bs else (a :: as, b :: bs)
  | as, bs => (as, bs)

/-- filepath.Rel base target for two absolute paths: after removing the
common prefix, one ".." per remaining base component, then the remaining
target components.  For two absolute Unix paths this never fails. -/
def relPath (base target : Path) : Path :=
  let p := stripCommon base target
  List.replicate p.1.length ".." ++ p.2

/-- Config from src/config/config.go (lines 10-14): the three roots. -/
structure Config where
  homeDir : Path
  dotmanDir : Path
  configsDir : Path

/-- NewWithoutDirectories from src/config/config.go (lines 17-31): the
store root is home/.dotman and the tracked subdirectory home/.dotman/configs
(filepath.Join with literal components is concatenation). -/
def mkConfig (home : Path) : Config :=
  ⟨home, home ++ [".dotman"], home ++ [".dotman", "configs"]⟩

/-- Is an Except value a success? -/
def exceptOkB {ε α : Type} : Except ε α → Bool
  | Except.ok _ => true
  | Except.error _ => false

/-- One entry visited by filepath.Walk: its absolute path, whether it is a
directory, and the error (if any) handed to the walk callback for it. -/
structure WalkEntry where
  path : Path
  isDir : Bool
  walkErr : Option String
  deriving DecidableEq, Repr

/-- Accumulator loop of ListFiles (src/unnamed/part_001 lines 28-51): the
walk callback aborts on the first entry error, skips directories, and
appends each file path relative to the configs directory.  Go then executes
`return files, err`, so the accumulated slice is returned together with the
error. -/
def listFilesGo (configsDir : Path) : List WalkEntry → List Path → List Path × Option String
  | [], acc => (acc.reverse, none)
  | e :: rest, acc =>
    match e.walkErr with
    | some err => (acc.reverse, some err)
    | none =>
      if e.isDir then listFilesGo configsDir rest acc
      else listFilesGo configsDir rest (relPath configsDir e.path :: acc)

/-- ListFiles from src/unnamed/part_001 (lines 28-51), over the sequence of
entries the walk visits. -/
def listFiles (configsDir : Path) (entries : List WalkEntry) : List Path × Option String :=
  listFilesGo configsDir entries []

/-- AddFile from src/unnamed/part_000 (lines 139-170): resolve to an
absolute path (the input is taken already resolved against the working
directory, then cleaned), return an error if os.Stat reports not-exist,
compute the path relative to the home directory, create the target
directory inside configs, and copy the file bytes there (copyFile =
ReadFile + WriteFile).  The part_001 revision (lines 228-303) performs the
same initial steps before additionally symlinking and committing. -/
def addFile (cfg : Config) (fs : FS) (src : Path) : Except FsErr FS :=
  let absP := cleanAbs src
  match statFS fs absP with
  | none => Except.error FsErr.notFound
  | some _ =>
    let rel := relPath cfg.homeDir absP
    let targetDir := joinPath cfg.configsDir rel.dropLast
    match mkdirAll fs targetDir with
    | Except.error e => Except.error e
    | Except.ok fs1 =>
      let targetPath := joinPath cfg.configsDir rel
      match readFileFS fs1 absP with
      | none => Except.error FsErr.readFailed
      | some c => writeFileFS fs1 targetPath c

/-- One tracked file processed by Link (src/unnamed/part_001 lines 306-344):
for the store file at configs/r the walk computes the mirrored target
home/r, creates its parent directories, removes whatever occupies the
target (os.RemoveAll), and symlinks the target to the store file. -/
def linkOne (cfg : Config) (fs : FS) (r : Path) : Except FsErr FS :=
  let path := joinPath cfg.configsDir r
  let targetPath := joinPath cfg.homeDir r
  match mkdirAll fs targetPath.dropLast with
  | Except.error e => Except.error e
  | Except.ok fs1 =>
    let fs2 := removeAllFS fs1 targetPath
    symlinkFS fs2 path targetPath

/-- Link from src/unnamed/part_001 (lines 306-344): process every tracked
file (given by its path relative to the configs directory, in walk order);
the first failure aborts the whole walk. -/
def link (cfg : Config) (fs : FS) (tracked : List Path) : Except FsErr FS :=
  tracked.foldlM (linkOne cfg) fs

/-- Outcome of the push-retry loop in InitializeGitRepo: overall success,
number of underlying push attempts, seconds slept between attempts, and the
attempt count named in the final error message (if any). -/
structure RetryResult where
  ok : Bool
  attempts : Nat
  sleeps : List Nat
  failMsgAttempts : Option Nat
  deriving DecidableEq, Repr

/-- The retry loop of InitializeGitRepo (src/unnamed/part_001 lines
206-224): `for i := 0; i < maxRetries; i++`, with `push i` telling whether
the i-th underlying push succeeds; on failure at the last index the error
names maxRetries attempts, otherwise it sleeps i+1 seconds and retries; the
unreachable fallthrough after the loop also names maxRetries. -/
def pushLoop (push : Nat → Bool) (maxRetries : Nat) : Nat → Nat → RetryResult
  | _, 0 => ⟨false, 0, [], some maxRetries⟩
  | i, r + 1 =>
    if push i then ⟨true, 1, [], none⟩
    else if i = maxRetries - 1 then ⟨false, 1, [], some maxRetries⟩
    else
      let rest := pushLoop push maxRetries (i + 1) r
      ⟨rest.ok, rest.attempts + 1, (i + 1) :: rest.sleeps, rest.failMsgAttempts⟩

/-- The push phase of InitializeGitRepo (src/unnamed/part_001 lines
206-224): maxRetries = 3, starting at attempt index 0. -/
def initializeGitRepoPush (push : Nat → Bool) : RetryResult :=
  pushLoop push 3 0 3

/-- CommitAndPush from src/unnamed/part_001 (lines 346-372), with the git
subprocess results abstracted as booleans: repository check, `git add .`,
`git commit`, then a single `git push` with no retry.  Returns overall
success and how many underlying push attempts were made. -/
def commitAndPushRun (isRepo addOk commitOk : Bool) (push : Nat → Bool) : Bool × Nat :=
  if !isRepo then (false, 0)
  else if !addOk then (false, 0)
  else if !commitOk then (false, 0)
  else if push 0 then (true, 1)
  else (false, 1)

/-- Push from src/unnamed/part_001 (lines 561-574): repository check, then
a single `git push` whose failure is fatal, with no retry.  Returns overall
success and how many underlying push attempts were made. -/
def pushRun (isRepo : Bool) (push : Nat → Bool) : Bool × Nat :=
  if !isRepo then (false, 0)
  else if push 0 then (true, 1)
  else (false, 1)

/-- Outcome of a single non-retried push step: overall success as reported
by the enclosing operation, the number of underlying push attempts, and
whether a warning was printed. -/
structure SinglePushOutcome where
  ok : Bool
  attempts : Nat
  warned : Bool
  deriving DecidableEq, Repr

/-- The push step of InitializeFromExistingRepo (src/unnamed/part_001
lines 136-144): one `git push`; a failure is only logged as a warning and
the operation still returns success — never retried. -/
def initExistingRepoPush (push : Nat → Bool) : SinglePushOutcome :=
  if push 0 then ⟨true, 1, false⟩ else ⟨true, 1, true⟩

/-- HealthCheckResult from src/manager/health.go (lines 14-21): category
label, message, optional error, severity.  The timestamp field carries no
behaviour and is omitted. -/
structure HealthCheckResult where
  status : String
  message : String
  error : Option String
  severity : String
  deriving DecidableEq, Repr

/-- Whether a result carries a hard failure indication (Error != nil). -/
def hasHardFailure (r : HealthCheckResult) : Bool :=
  r.error.isSome

/-- The aggregation loop of HealthCheck (src/manager/health.go lines
57-67): hasErrors becomes true exactly when some result has Error != nil. -/
def healthCheckFails (results : List HealthCheckResult) : Bool :=
  results.any hasHardFailure

/-- The return value of HealthCheck (src/manager/health.go lines 69-73):
a non-nil error exactly when hasErrors. -/
def healthCheckReturn (results : List HealthCheckResult) : Except String Unit :=
  if healthCheckFails results then Except.error "health check found issues"
  else Except.ok ()

/-- saveHealthCheckResults from src/manager/health.go (lines 77-94): create
the health directory under the store and write a timestamped JSON snapshot
into it (the serialized results are passed in as contents). -/
def saveHealthCheckResults (cfg : Config) (fs : FS) (timestamp : String) (results : Content) : Except FsErr FS :=
  let healthDir := cfg.dotmanDir ++ ["health"]
  match mkdirAll fs healthDir with
  | Except.error e => Except.error e
  | Except.ok fs1 =>
    writeFileFS fs1 (healthDir ++ ["health-check-" ++ timestamp ++ ".json"]) results

/-- The filesystem effect of one HealthCheck run (src/manager/health.go
lines 24-74): the individual checks only read, and the snapshot save is the
only write; a save failure is merely logged (lines 52-54), leaving the
filesystem as it was. -/
def healthCheckFS (cfg : Config) (fs : FS) (timestamp : String) (results : Content) : FS :=
  match saveHealthCheckResults cfg fs timestamp results with
  | Except.ok fs1 => fs1
  | Except.error _ => fs

/-- The conflict test of checkFileConflicts (src/manager/health.go lines
339-349) for one tracked file r: the mirrored home path is a conflict when
os.Lstat finds something there and either os.Readlink fails (not a symlink)
or the recorded link target differs from the store path. -/
def conflictAt (cfg : Config) (fs : FS) (r : Path) : Bool :=
  let path := joinPath cfg.configsDir r
  let homePath := joinPath cfg.homeDir r
  match fs homePath with
  | none => false
  | some (Node.symlink t) => if t = path then false else true
  | some _ => true

/-- checkFileConflicts from src/manager/health.go (lines 322-379): the
relative paths of all tracked files whose mirrored home path conflicts. -/
def checkFileConflicts (cfg : Config) (fs : FS) (tracked : List Path) : List Path :=
  tracked.filter (conflictAt cfg fs)

/-- BackupFile from src/unnamed/part_001 (lines 423-473): ensure the
backups directory, read the file bytes (through symlinks), record the
symlink target if os.Readlink succeeds on the path itself, create the
per-backup directory, and write the content and metadata artifacts.  The
identifier and timestamp (derived from the wall clock in Go) are passed in. -/
def backupFile (cfg : Config) (fs : FS) (id : String) (ts : Nat) (filePath : Path) : Except FsErr FS :=
  match mkdirAll fs (cfg.dotmanDir ++ ["backups"]) with
  | Except.error e => Except.error e
  | Except.ok fs1 =>
    match readFileFS fs1 filePath with
    | none => Except.error FsErr.readFailed
    | some content =>
      let symTarget : Option Path :=
        match fs1 filePath with
        | some (Node.symlink t) => some t
        | _ => none
      let md : BackupMetadata := ⟨id, filePath, symTarget, ts⟩
      let backupDir := cfg.dotmanDir ++ ["backups", id]
      match mkdirAll fs1 backupDir with
      | Except.error e => Except.error e
      | Except.ok fs2 =>
        match writeFileFS fs2 (backupDir ++ ["content"]) content with
        | Except.error e => Except.error e
        | Except.ok fs3 =>
          writeFileFS fs3 (backupDir ++ ["metadata.json"]) (Content.meta md)

/-- RestoreBackup from src/unnamed/part_001 (lines 511-558): read and parse
the metadata, read the content, create the original path's parent
directories, write the content to the original path, and if a symlink
target was recorded remove whatever is now at the original path (a
not-exist error is tolerated) and recreate the symlink. -/
def restoreBackup (cfg : Config) (fs : FS) (backupID : String) : Except FsErr FS :=
  let backupDir := cfg.dotmanDir ++ ["backups", backupID]
  match readFileFS fs (backupDir ++ ["metadata.json"]) with
  | none => Except.error FsErr.readFailed
  | some (Content.bytes _) => Except.error FsErr.parseFailed
  | some (Content.meta md) =>
    match readFileFS fs (backupDir ++ ["content"]) with
    | none => Except.error FsErr.readFailed
    | some content =>
      match mkdirAll fs md.originalPath.dropLast with
      | Except.error e => Except.error e
      | Except.ok fs1 =>
        match writeFileFS fs1 md.originalPath content with
        | Except.error e => Except.error e
        | Except.ok fs2 =>
          match md.symlinkPath with
          | none => Except.ok fs2
          | some t =>
            match fs2 md.originalPath with
            | none => symlinkFS fs2 t md.originalPath
            | some Node.dir => Except.error FsErr.isDir
            | some _ => symlinkFS (fsErase fs2 md.originalPath) t md.originalPath

/-- One entry of os.ReadDir: a name and whether it is a directory. -/
structure DirEntry where
  name : String
  isDir : Bool
  deriving DecidableEq, Repr

/-- The per-entry collection loop of ListBackups (src/unnamed/part_001
lines 487-505): skip non-directories, skip entries whose metadata is
missing or unreadable, skip entries whose metadata fails to unmarshal,
collect the rest. -/
def collectBackups (fs : FS) (backupsDir : Path) (entries : List DirEntry) : List BackupMetadata :=
  entries.foldl
    (fun acc e =>
      if !e.isDir then acc
      else
        match readFileFS fs (backupsDir ++ [e.name, "metadata.json"]) with
        | some (Content.meta m) => acc ++ [m]
        | some (Content.bytes _) => acc
        | none => acc)
    []

/-- ListBackups from src/unnamed/part_001 (lines 476-508): return an empty
list with no error when the backups directory does not exist; fail only
when os.ReadDir itself fails (its outcome is passed in, since the directory
listing is not derivable from the map-based filesystem); otherwise collect
entries, skipping any with missing or malformed metadata. -/
def listBackups (cfg : Config) (fs : FS) (readDirResult : Except String (List DirEntry)) : Except String (List BackupMetadata) :=
  let backupsDir := cfg.dotmanDir ++ ["backups"]
  if (statFS fs backupsDir).isNone then Except.ok []
  else
    match readDirResult with
    | Except.error e => Except.error e
    | Except.ok entries => Except.ok (collectBackups fs backupsDir entries)

/-! Concrete filesystems and inputs used to evaluate the theorems below. -/

/-- Eight health-check results with no error indication, one of them a
warning: the shape of an all-clear run with a stale-file warning. -/
def c3Results : List HealthCheckResult :=
  [⟨"Symlink Check", "All symlinks are valid", none, "info"⟩,
   ⟨"Permission Check", "All files have correct permissions", none, "info"⟩,
   ⟨"Git Status", "Repository is clean and properly configured", none, "info"⟩,
   ⟨"Backup Check", "All backups are valid", none, "info"⟩,
   ⟨"Conflict Check", "No conflicts found", none, "info"⟩,
   ⟨"Outdated Check", "Found 1 potentially outdated files: a", none, "warning"⟩,
   ⟨"Disk Space", "Sufficient disk space: 10.00 GB available", none, "info"⟩,
   ⟨"File Changes", "No uncommitted changes", none, "info"⟩]

/-- A walk over the configs directory that reads one file and then hits a
permission error. -/
def c6configsDir : Path := ["h", ".dotman", "configs"]

/-- Entries for the failing walk: one good file, then an entry error. -/
def c6entries : List WalkEntry :=
  [⟨["h", ".dotman", "configs", "a"], false, none⟩,
   ⟨["h", ".dotman", "configs", "sub"], true, some "permission denied"⟩]

/-- The empty filesystem. -/
def emptyFS : FS := fun _ => none

/-- A home directory containing one regular file at h/x. -/
def c7fs : FS := fun q =>
  if q = ["h", "x"] then some (Node.file (Content.bytes [0])) else none

/-- The configuration rooted at /home/user. -/
def c2cfg : Config := mkConfig ["home", "user"]

/-- A store with no health directory yet. -/
def c8fs : FS := fun q =>
  if q = ["h"] then some Node.dir
  else if q = ["h", ".dotman"] then some Node.dir
  else none

/-- A home directory containing nothing besides its own root. -/
def c1fs : FS := fun q => if q = ["h"] then some Node.dir else none

/-- The filesystem produced by linking the single tracked file a. -/
def c1out : FS :=
  match link (mkConfig ["h"]) c1fs [["a"]] with
  | Except.ok f => f
  | Except.error _ => emptyFS

/-- Metadata of a backup whose source was a symlink to the store. -/
def c10md : BackupMetadata := ⟨"1", ["h", "f"], some ["h", ".dotman", "configs", "f"], 0⟩

/-- A store holding one complete backup with a recorded symlink target. -/
def c10fs : FS := fun q =>
  if q = ["h"] then some Node.dir
  else if q = ["h", ".dotman"] then some Node.dir
  else if q = ["h", ".dotman", "backups"] then some Node.dir
  else if q = ["h", ".dotman", "backups", "1"] then some Node.dir
  else if q = ["h", ".dotman", "backups", "1", "metadata.json"] then
    some (Node.file (Content.meta c10md))
  else if q = ["h", ".dotman", "backups", "1", "content"] then
    some (Node.file (Content.bytes [7]))
  else none

/-- The filesystem after restoring backup 1. -/
def c10out : FS :=
  match restoreBackup (mkConfig ["h"]) c10fs "1" with
  | Except.ok f => f
  | Except.error _ => emptyFS

/-- A home directory with one regular file h/f to back up. -/
def c4fs : FS := fun q =>
  if q = ["h"] then some Node.dir
  else if q = ["h", "f"] then some (Node.file (Content.bytes [5]))
  else none

/-- The filesystem after backing up h/f. -/
def c4mid : FS :=
  match backupFile (mkConfig ["h"]) c4fs "1" 0 ["h", "f"] with
  | Except.ok f => f
  | Except.error _ => emptyFS

/-- The filesystem after then restoring backup 1. -/
def c4out : FS :=
  match restoreBackup (mkConfig ["h"]) c4mid "1" with
  | Except.ok f => f
  | Except.error _ => emptyFS

/-- A filesystem with /etc/passwd outside the home root /home/user. -/
def c2fs : FS := fun q =>
  if q = ["etc", "passwd"] then some (Node.file (Content.bytes [42]))
  else if q = ["etc"] then some Node.dir
  else if q = ["home"] then some Node.dir
  else if q = ["home", "user"] then some Node.dir
  else none

end CliConfigManager

namespace CliConfigManager

/-! Helper lemmas. -/

theorem pfx_length_le {a b : Path} (h : a <+: b) : a.length ≤ b.length := by
  obtain ⟨t, ht⟩ := h
  subst ht
  simp

theorem pfx_app_cancel (l a b : Path) : (l ++ a <+: l ++ b) ↔ (a <+: b) := by
  constructor
  · rintro ⟨t, ht⟩
    refine ⟨t, ?_⟩
    have ht2 : l ++ (a ++ t) = l ++ b := by simpa [List.append_assoc] using ht
    exact List.append_cancel_left ht2
  · rintro ⟨t, ht⟩
    exact ⟨t, by simp [List.append_assoc, ht]⟩

theorem fsInsert_self (fs : FS) (p : Path) (n : Node) : fsInsert fs p n p = some n := by
  simp [fsInsert]

theorem fsInsert_ne (fs : FS) (p : Path) (n : Node) (q : Path) (h : q ≠ p) :
    fsInsert fs p n q = fs q := by
  simp [fsInsert, h]

theorem foldl_cleanStep_plain :
    ∀ (b : Path) (acc : List String), cleanRel b = true → b.foldl cleanStep acc = acc ++ b := by
  intro b
  induction b with
  | nil => intro acc _; simp
  | cons c rest ih =>
    intro acc h
    have hc : ¬ (c = "." ∨ c = "") ∧ ¬ (c = "..") := by
      rw [cleanRel, List.all_cons, Bool.and_eq_true] at h
      have h1 := h.1
      simp [plainComp] at h1
      exact ⟨by tauto, by tauto⟩
    have hr : cleanRel rest = true := by
      rw [cleanRel, List.all_cons, Bool.and_eq_true] at h
      exact h.2
    have hstep : cleanStep acc c = acc ++ [c] := by
      rw [cleanStep, if_neg hc.1, if_neg hc.2]
    rw [List.foldl_cons, hstep, ih (acc ++ [c]) hr, List.append_assoc]
    rfl

theorem cleanAbs_append_plain (a b : Path) (ha : cleanAbs a = a) (hb : cleanRel b = true) :
    cleanAbs (a ++ b) = a ++ b := by
  unfold cleanAbs at ha ⊢
  rw [List.foldl_append, ha, foldl_cleanStep_plain b a hb]

theorem joinPath_plain (a b : Path) (ha : cleanAbs a = a) (hb : cleanRel b = true) :
    joinPath a b = a ++ b :=
  cleanAbs_append_plain a b ha hb

theorem pfx_trans {a b c : Path} (h1 : a <+: b) (h2 : b <+: c) : a <+: c := by
  obtain ⟨t1, rfl⟩ := h1
  obtain ⟨t2, rfl⟩ := h2
  exact ⟨t1 ++ t2, by simp [List.append_assoc]⟩

theorem pfx_head {x y : String} {a b : Path} (h : x :: a <+: y :: b) : x = y := by
  obtain ⟨t, ht⟩ := h
  exact (List.cons.inj ht).1

theorem not_pfx_snoc (a : Path) (x : String) : ¬ (a ++ [x] <+: a) := by
  intro h
  have := pfx_length_le h
  simp at this

theorem exceptBind_ok {ε α β : Type} {x : Except ε α} {g : α → Except ε β} {c : β}
    (h : (x >>= g) = Except.ok c) : ∃ b, x = Except.ok b ∧ g b = Except.ok c := by
  cases x with
  | error e => exact Except.noConfusion h
  | ok b => exact ⟨b, rfl, h⟩

theorem ancestors_pfx (p : Path) : ∀ e ∈ ancestors p, e <+: p := by
  intro e he
  rw [ancestors] at he
  simp only [List.mem_map, List.mem_range] at he
  obtain ⟨i, _, he⟩ := he
  exact he ▸ List.take_prefix _ _

theorem mkdirOne_pres (fs fsm : FS) (e : Path) (h : mkdirOne fs e = Except.ok fsm)
    (q : Path) (n : Node) (hq : fs q = some n) : fsm q = some n := by
  rw [mkdirOne] at h
  rcases hfe : fs e with _ | ne
  · rw [hfe] at h
    injection h with h2
    by_cases hqe : q = e
    · rw [hqe, hfe] at hq
      exact Option.noConfusion hq
    · rw [← h2, fsInsert_ne fs e Node.dir q hqe]
      exact hq
  · cases ne with
    | file c =>
      rw [hfe] at h
      exact Except.noConfusion h
    | dir =>
      rw [hfe] at h
      injection h with h2
      rw [← h2]
      exact hq
    | symlink t =>
      rw [hfe] at h
      exact Except.noConfusion h

theorem mkdirOne_frame (fs fsm : FS) (e : Path) (h : mkdirOne fs e = Except.ok fsm)
    (q : Path) (hqe : q ≠ e) : fsm q = fs q := by
  rw [mkdirOne] at h
  rcases hfe : fs e with _ | ne
  · rw [hfe] at h
    injection h with h2
    rw [← h2, fsInsert_ne fs e Node.dir q hqe]
  · cases ne with
    | file c =>
      rw [hfe] at h
      exact Except.noConfusion h
    | dir =>
      rw [hfe] at h
      injection h with h2
      rw [← h2]
    | symlink t =>
      rw [hfe] at h
      exact Except.noConfusion h

theorem mkdirFold_pres : ∀ (l : List Path) (fs fs' : FS),
    List.foldlM mkdirOne fs l = Except.ok fs' →
    ∀ (q : Path) (n : Node), fs q = some n → fs' q = some n := by
  intro l
  induction l with
  | nil =>
    intro fs fs' h q n hq
    simp only [List.foldlM] at h
    injection h with h2
    rw [← h2]
    exact hq
  | cons e rest ih =>
    intro fs fs' h q n hq
    simp only [List.foldlM] at h
    obtain ⟨fsm, hm, h2⟩ := exceptBind_ok h
    exact ih fsm fs' h2 q n (mkdirOne_pres fs fsm e hm q n hq)

theorem mkdirFold_frame (p : Path) : ∀ (l : List Path) (fs fs' : FS),
    (∀ e ∈ l, e <+: p) → List.foldlM mkdirOne fs l = Except.ok fs' →
    ∀ q : Path, ¬ (q <+: p) → fs' q = fs q := by
  intro l
  induction l with
  | nil =>
    intro fs fs' _ h q _
    simp only [List.foldlM] at h
    injection h with h2
    rw [h2]
  | cons e rest ih =>
    intro fs fs' hl h q hq
    simp only [List.foldlM] at h
    obtain ⟨fsm, hm, h2⟩ := exceptBind_ok h
    have he : e <+: p := hl e (by simp)
    have hqe : q ≠ e := fun heq => hq (heq ▸ he)
    rw [ih fsm fs' (fun x hx => hl x (by simp [hx])) h2 q hq]
    exact mkdirOne_frame fs fsm e hm q hqe

theorem mkdirAll_pres (fs fs' : FS) (p : Path) (h : mkdirAll fs p = Except.ok fs')
    (q : Path) (n : Node) (hq : fs q = some n) : fs' q = some n :=
  mkdirFold_pres (ancestors p) fs fs' h q n hq

theorem mkdirAll_frame (fs fs' : FS) (p : Path) (h : mkdirAll fs p = Except.ok fs')
    (q : Path) (hq : ¬ (q <+: p)) : fs' q = fs q :=
  mkdirFold_frame p (ancestors p) fs fs' (ancestors_pfx p) h q hq

theorem resolveFinal_not_link (fs : FS) (n : Nat) (p : Path) (h : isSymlinkB (fs p) = false) :
    resolveFinal fs (n + 1) p = some p := by
  rcases hfp : fs p with _ | nd
  · simp [resolveFinal, hfp]
  · cases nd with
    | file c => simp [resolveFinal, hfp]
    | dir => simp [resolveFinal, hfp]
    | symlink t =>
      rw [isSymlinkB.eq_def, hfp] at h
      exact Bool.noConfusion h

theorem writeFileFS_ok_self (fs : FS) (p : Path) (c : Content) (fs2 : FS)
    (hns : isSymlinkB (fs p) = false)
    (h : writeFileFS fs p c = Except.ok fs2) : fs2 = fsInsert fs p (Node.file c) := by
  have hres : resolveFinal fs linkFuel p = some p := by
    rw [show linkFuel = 39 + 1 from rfl]
    exact resolveFinal_not_link fs 39 p hns
  rw [writeFileFS, hres] at h
  by_cases hd : fs p = some Node.dir
  · simp [hd] at h
  · simp [hd] at h
    exact h.symm

/-! C3: the overall health-check outcome. -/

/-- C3: HealthCheck returns a failing outcome if and only if at least one
of the eight results carries a hard failure indication (a non-nil Error
field); results whose severity is merely warning, carrying no failure
indication, never cause the run to fail. -/
theorem healthCheck_fails_iff (results : List HealthCheckResult) (_h8 : results.length = 8) :
    (healthCheckReturn results = Except.error "health check found issues" ↔
      ∃ r ∈ results, hasHardFailure r = true) ∧
    ((∀ r ∈ results, r.error = none) → healthCheckReturn results = Except.ok ()) := by
  have key : healthCheckFails results = true ↔ ∃ r ∈ results, hasHardFailure r = true :=
    List.any_eq_true
  have h1 : healthCheckReturn results = Except.error "health check found issues" ↔
      healthCheckFails results = true := by
    unfold healthCheckReturn
    by_cases hb : healthCheckFails results = true
    · simp [hb]
    · simp [hb]
  refine ⟨h1.trans key, ?_⟩
  intro hnone
  have hf : healthCheckFails results = false := by
    simp only [healthCheckFails, List.any_eq_false]
    intro r hr
    simp [hasHardFailure, hnone r hr]
  simp [healthCheckReturn, hf]

/-- C3 witness: a concrete eight-result list with a warning but no failure
indication leaves the run successful. -/
theorem healthCheck_fails_iff_check : healthCheckReturn c3Results = Except.ok () :=
  (healthCheck_fails_iff c3Results (by decide)).2 (by decide)

/-! C5: push retry. -/

/-- C5 (amended): only the push inside InitializeGitRepo is retried, up to
3 attempts with waits of 1 then 2 seconds; if the first two pushes fail and
the third succeeds it reports success after exactly 3 attempts, and if all
three fail the error names the 3 attempts.  Every other push site performs
its push exactly once with no retry: CommitAndPush and Push make one
attempt once their preceding steps succeed (and never more than one), and
InitializeFromExistingRepo makes exactly one attempt, merely logging a
warning on failure. -/
theorem push_retry_behavior :
    (∀ push : Nat → Bool, push 0 = false → push 1 = false → push 2 = true →
      initializeGitRepoPush push = ⟨true, 3, [1, 2], none⟩) ∧
    (∀ push : Nat → Bool, push 0 = false → push 1 = false → push 2 = false →
      initializeGitRepoPush push = ⟨false, 3, [1, 2], some 3⟩) ∧
    (∀ (isRepo addOk commitOk : Bool) (push : Nat → Bool),
      (commitAndPushRun isRepo addOk commitOk push).2 ≤ 1) ∧
    (∀ push : Nat → Bool, (commitAndPushRun true true true push).2 = 1) ∧
    (∀ (isRepo : Bool) (push : Nat → Bool), (pushRun isRepo push).2 ≤ 1) ∧
    (∀ push : Nat → Bool, (pushRun true push).2 = 1) ∧
    (∀ push : Nat → Bool, (initExistingRepoPush push).attempts = 1) := by
  refine ⟨?_, ?_, ?_, ?_, ?_, ?_, ?_⟩
  · intro p h0 h1 h2
    simp [initializeGitRepoPush, pushLoop, h0, h1, h2]
  · intro p h0 h1 h2
    simp [initializeGitRepoPush, pushLoop, h0, h1, h2]
  · intro isRepo addOk commitOk p
    unfold commitAndPushRun
    by_cases h1 : isRepo <;> by_cases h2 : addOk <;> by_cases h3 : commitOk <;>
      by_cases h4 : p 0 <;> simp [h1, h2, h3, h4]
  · intro p
    unfold commitAndPushRun
    by_cases h4 : p 0 <;> simp [h4]
  · intro isRepo p
    unfold pushRun
    by_cases h1 : isRepo <;> by_cases h4 : p 0 <;> simp [h1, h4]
  · intro p
    unfold pushRun
    by_cases h4 : p 0 <;> simp [h4]
  · intro p
    unfold initExistingRepoPush
    by_cases h4 : p 0 <;> simp [h4]

/-- C5 counterexample: a push of the version-control bridge that fails
twice and would succeed on a third attempt, run through CommitAndPush,
reports failure after a single underlying attempt — not success after
three. -/
theorem commitAndPush_no_retry_cx :
    commitAndPushRun true true true (fun i => decide (2 ≤ i)) = (false, 1) := by decide

/-- C5 witness: the InitializeGitRepo push with the same fail-twice oracle
succeeds after exactly three attempts with 1- and 2-second waits. -/
theorem push_retry_behavior_check :
    initializeGitRepoPush (fun i => decide (2 ≤ i)) = ⟨true, 3, [1, 2], none⟩ :=
  push_retry_behavior.1 (fun i => decide (2 ≤ i)) (by decide) (by decide) (by decide)

/-! C6: ListFiles. -/

theorem listFilesGo_clean (cd : Path) :
    ∀ (es : List WalkEntry) (acc : List Path), (∀ e ∈ es, e.walkErr = none) →
    listFilesGo cd es acc =
      (acc.reverse ++ (es.filter (fun e => !e.isDir)).map (fun e => relPath cd e.path), none) := by
  intro es
  induction es with
  | nil => intro acc _; simp [listFilesGo]
  | cons e rest ih =>
    intro acc h
    have he : e.walkErr = none := h e (by simp)
    have hr : ∀ x ∈ rest, x.walkErr = none := fun x hx => h x (by simp [hx])
    by_cases hd : e.isDir
    · simp [listFilesGo, he, hd, ih _ hr]
    · simp [listFilesGo, he, hd, ih _ hr, List.append_assoc]

theorem listFilesGo_err (cd : Path) (e : WalkEntry) (msg : String) (he : e.walkErr = some msg) :
    ∀ (es1 es2 : List WalkEntry) (acc : List Path), (∀ x ∈ es1, x.walkErr = none) →
    listFilesGo cd (es1 ++ e :: es2) acc =
      (acc.reverse ++ (es1.filter (fun x => !x.isDir)).map (fun x => relPath cd x.path), some msg) := by
  intro es1
  induction es1 with
  | nil => intro es2 acc _; simp [listFilesGo, he]
  | cons x rest ih =>
    intro es2 acc h
    have hx : x.walkErr = none := h x (by simp)
    have hr : ∀ y ∈ rest, y.walkErr = none := fun y hy => h y (by simp [hy])
    by_cases hd : x.isDir
    · simp [listFilesGo, hx, hd, ih es2 _ hr]
    · simp [listFilesGo, hx, hd, ih es2 _ hr, List.append_assoc]

/-- C6 (amended): ListFiles fails exactly when an entry of the walk carries
an I/O error (an error-free walk returns every non-directory entry's
relative path with no error), and on failure the partial list accumulated
before the failing entry is returned to the caller alongside the error
rather than discarded. -/
theorem listFiles_error_behavior :
    (∀ (cd : Path) (es : List WalkEntry), (∀ e ∈ es, e.walkErr = none) →
      listFiles cd es = ((es.filter (fun e => !e.isDir)).map (fun e => relPath cd e.path), none)) ∧
    (∀ (cd : Path) (es1 : List WalkEntry) (e : WalkEntry) (es2 : List WalkEntry) (msg : String),
      (∀ x ∈ es1, x.walkErr = none) → e.walkErr = some msg →
      listFiles cd (es1 ++ e :: es2) =
        ((es1.filter (fun x => !x.isDir)).map (fun x => relPath cd x.path), some msg)) := by
  constructor
  · intro cd es h
    simpa [listFiles] using listFilesGo_clean cd es [] h
  · intro cd es1 e es2 msg h he
    simpa [listFiles] using listFilesGo_err cd e msg he es1 es2 [] h

/-- C6 counterexample: a walk that reads one file and then hits an I/O
error makes ListFiles return the one-element partial list together with the
error — the partial results are not discarded. -/
theorem listFiles_partial_cx :
    (listFiles c6configsDir c6entries).2 = some "permission denied" ∧
    (listFiles c6configsDir c6entries).1 = [["a"]] := by decide

/-- C6 witness: an error-free one-file walk lists exactly that file. -/
theorem listFiles_error_behavior_check :
    listFiles c6configsDir [⟨["h", ".dotman", "configs", "a"], false, none⟩] = ([["a"]], none) := by
  rw [listFiles_error_behavior.1 c6configsDir _ (by decide)]
  decide

/-! C9: ListBackups. -/

/-- C9: when the backups directory does not exist ListBackups returns an
empty list and no error, and whenever the directory listing itself
succeeds, ListBackups succeeds regardless of the state of every individual
backup entry's metadata. -/
theorem listBackups_robust :
    (∀ (cfg : Config) (fs : FS) (rd : Except String (List DirEntry)),
      statFS fs (cfg.dotmanDir ++ ["backups"]) = none → listBackups cfg fs rd = Except.ok []) ∧
    (∀ (cfg : Config) (fs : FS) (entries : List DirEntry),
      exceptOkB (listBackups cfg fs (Except.ok entries)) = true) := by
  constructor
  · intro cfg fs rd h
    simp [listBackups, h]
  · intro cfg fs entries
    by_cases h : (statFS fs (cfg.dotmanDir ++ ["backups"])).isNone
    · simp [listBackups, h, exceptOkB]
    · simp [listBackups, h, exceptOkB]

/-- C9 witness: with no backups directory, even a failing directory read is
never consulted and the listing is empty and successful. -/
theorem listBackups_robust_check :
    listBackups (mkConfig ["h"]) emptyFS (Except.error "boom") = Except.ok [] :=
  listBackups_robust.1 (mkConfig ["h"]) emptyFS (Except.error "boom") (by decide)

/-! C7: conflict detection. -/

theorem conflictAt_shape (home : Path) (hhc : cleanAbs home = home) (r : Path)
    (hr : cleanRel r = true) (g : FS) :
    conflictAt (mkConfig home) g r =
      (match g (home ++ r) with
       | none => false
       | some (Node.symlink t) => if t = home ++ ([".dotman", "configs"] ++ r) then false else true
       | some _ => true) := by
  have hl : cleanRel ([".dotman", "configs"] ++ r) = true := by
    rw [cleanRel, List.all_append]
    rw [cleanRel] at hr
    rw [hr]
    decide
  have hjh : joinPath home r = home ++ r := joinPath_plain home r hhc hr
  have hjc : joinPath (home ++ [".dotman", "configs"]) r = home ++ ([".dotman", "configs"] ++ r) := by
    unfold joinPath
    rw [List.append_assoc]
    exact cleanAbs_append_plain home ([".dotman", "configs"] ++ r) hhc hl
  simp only [conflictAt, mkConfig]
  simp only [hjh, hjc]

/-- C7: a tracked file is reported by the conflict check exactly when its
mirrored home path exists and either is not a symbolic link or is a
symbolic link whose target differs from the stored file's exact path; a
regular file at the mirrored path is always a conflict, and replacing it
with a symlink targeting the stored path clears the conflict. -/
theorem conflict_check_iff (home : Path) (hhc : cleanAbs home = home)
    (fs : FS) (tracked : List Path) (r : Path) (hr : cleanRel r = true) :
    (r ∈ checkFileConflicts (mkConfig home) fs tracked ↔
      r ∈ tracked ∧ fs (home ++ r) ≠ none ∧
        ∀ t, fs (home ++ r) = some (Node.symlink t) → t ≠ home ++ ([".dotman", "configs"] ++ r)) ∧
    (∀ c, fs (home ++ r) = some (Node.file c) → conflictAt (mkConfig home) fs r = true) ∧
    (conflictAt (mkConfig home)
      (fsInsert fs (home ++ r) (Node.symlink (home ++ ([".dotman", "configs"] ++ r)))) r = false) := by
  refine ⟨?_, ?_, ?_⟩
  · rw [checkFileConflicts, List.mem_filter]
    constructor
    · rintro ⟨hmem, hconf⟩
      rw [conflictAt_shape home hhc r hr fs] at hconf
      refine ⟨hmem, ?_, ?_⟩
      · intro hnone
        rw [hnone] at hconf
        simp at hconf
      · intro t ht heq
        rw [ht, heq] at hconf
        simp at hconf
    · rintro ⟨hmem, hne, hsym⟩
      refine ⟨hmem, ?_⟩
      rw [conflictAt_shape home hhc r hr fs]
      rcases hfs : fs (home ++ r) with _ | n
      · exact absurd hfs hne
      · cases n with
        | file c => simp
        | dir => simp
        | symlink t => exact if_neg (hsym t hfs)
  · intro c hfsc
    rw [conflictAt_shape home hhc r hr fs, hfsc]
  · rw [conflictAt_shape home hhc r hr _, fsInsert_self]
    simp

/-- C7 witness: a regular file at the mirrored path h/x is a conflict, and
replacing it with a symlink to the stored path clears it. -/
theorem conflict_check_iff_check :
    conflictAt (mkConfig ["h"]) c7fs ["x"] = true ∧
    conflictAt (mkConfig ["h"])
      (fsInsert c7fs (["h"] ++ ["x"]) (Node.symlink (["h"] ++ ([".dotman", "configs"] ++ ["x"])))) ["x"] = false :=
  ⟨(conflict_check_iff ["h"] (by decide) c7fs [["x"]] ["x"] (by decide)).2.1
      (Content.bytes [0]) (by decide),
   (conflict_check_iff ["h"] (by decide) c7fs [["x"]] ["x"] (by decide)).2.2⟩

/-! C2: AddFile error behaviour. -/

/-- C2 (amended): AddFile fails with a not-found error when the resolved
absolute source path does not exist; a source outside the home root does
not make AddFile fail — filepath.Rel produces a ".."-prefixed relative
path, and the copy proceeds to the cleaned join of the configs directory
with that relative path. -/
theorem addFile_error_behavior :
    (∀ (cfg : Config) (fs : FS) (src : Path),
      statFS fs (cleanAbs src) = none → addFile cfg fs src = Except.error FsErr.notFound) ∧
    (∀ (cfg : Config) (fs : FS) (src : Path) (n : Node) (fs1 : FS) (c : Content),
      statFS fs (cleanAbs src) = some n →
      mkdirAll fs (joinPath cfg.configsDir (relPath cfg.homeDir (cleanAbs src)).dropLast) = Except.ok fs1 →
      readFileFS fs1 (cleanAbs src) = some c →
      addFile cfg fs src =
        writeFileFS fs1 (joinPath cfg.configsDir (relPath cfg.homeDir (cleanAbs src))) c) := by
  constructor
  · intro cfg fs src h
    simp [addFile, h]
  · intro cfg fs src n fs1 c h1 h2 h3
    simp [addFile, h1, h2, h3]

/-- C2 counterexample: the existing source /etc/passwd lies outside the
home root /home/user, yet AddFile succeeds instead of failing. -/
theorem addFile_outside_home_cx :
    ¬ (c2cfg.homeDir <+: cleanAbs ["etc", "passwd"]) ∧
    exceptOkB (addFile c2cfg c2fs ["etc", "passwd"]) = true := by decide

/-- C2 witness: a non-existent source path yields the not-found error. -/
theorem addFile_error_behavior_check :
    addFile c2cfg emptyFS ["nope"] = Except.error FsErr.notFound :=
  addFile_error_behavior.1 c2cfg emptyFS ["nope"] (by decide)

/-! C8: the filesystem effect of HealthCheck. -/

theorem disjoint_store_branch (cfg : Config) (ts : String) (s : String) (hs : s ≠ "health")
    (q : Path) (hq : cfg.dotmanDir ++ [s] <+: q) :
    ¬ (q <+: cfg.dotmanDir ++ ["health"]) ∧
    q ≠ cfg.dotmanDir ++ ["health"] ++ ["health-check-" ++ ts ++ ".json"] := by
  constructor
  · intro hq2
    have h3 : cfg.dotmanDir ++ [s] <+: cfg.dotmanDir ++ ["health"] := pfx_trans hq hq2
    rw [pfx_app_cancel] at h3
    exact hs (pfx_head h3)
  · intro heq
    rw [heq] at hq
    rw [List.append_assoc] at hq
    rw [pfx_app_cancel] at hq
    exact hs (pfx_head hq)

/-- C8 (amended): HealthCheck is not read-only — its snapshot save may
create the health directory (and missing ancestors on the way to it) under
the store and writes one timestamped JSON snapshot inside it — but nothing
else changes: every path that is neither on the way to the health directory
nor the snapshot file itself is untouched, and in particular the tracked
configs subtree and the backups subtree are identical before and after. -/
theorem healthCheck_frame (cfg : Config) (fs : FS) (ts : String) (results : Content)
    (hsnap : isSymlinkB (fs (cfg.dotmanDir ++ ["health"] ++ ["health-check-" ++ ts ++ ".json"])) = false) :
    (∀ q : Path, ¬ (q <+: cfg.dotmanDir ++ ["health"]) →
      q ≠ cfg.dotmanDir ++ ["health"] ++ ["health-check-" ++ ts ++ ".json"] →
      healthCheckFS cfg fs ts results q = fs q) ∧
    (∀ q : Path, cfg.dotmanDir ++ ["configs"] <+: q → healthCheckFS cfg fs ts results q = fs q) ∧
    (∀ q : Path, cfg.dotmanDir ++ ["backups"] <+: q → healthCheckFS cfg fs ts results q = fs q) := by
  have key : ∀ q : Path, ¬ (q <+: cfg.dotmanDir ++ ["health"]) →
      q ≠ cfg.dotmanDir ++ ["health"] ++ ["health-check-" ++ ts ++ ".json"] →
      healthCheckFS cfg fs ts results q = fs q := by
    intro q hq1 hq2
    unfold healthCheckFS
    rcases hsave : saveHealthCheckResults cfg fs ts results with e | fs2
    · rfl
    · show fs2 q = fs q
      rw [saveHealthCheckResults] at hsave
      rcases hmk : mkdirAll fs (cfg.dotmanDir ++ ["health"]) with e1 | fs1
      · rw [hmk] at hsave
        exact Except.noConfusion hsave
      · rw [hmk] at hsave
        have hw : writeFileFS fs1
            (cfg.dotmanDir ++ ["health"] ++ ["health-check-" ++ ts ++ ".json"]) results =
            Except.ok fs2 := hsave
        have hfr : fs1 (cfg.dotmanDir ++ ["health"] ++ ["health-check-" ++ ts ++ ".json"]) =
            fs (cfg.dotmanDir ++ ["health"] ++ ["health-check-" ++ ts ++ ".json"]) :=
          mkdirAll_frame fs fs1 (cfg.dotmanDir ++ ["health"]) hmk _
            (not_pfx_snoc (cfg.dotmanDir ++ ["health"]) ("health-check-" ++ ts ++ ".json"))
        have hns : isSymlinkB (fs1 (cfg.dotmanDir ++ ["health"] ++ ["health-check-" ++ ts ++ ".json"])) = false := by
          rw [hfr]
          exact hsnap
        have hfs2 : fs2 = fsInsert fs1
            (cfg.dotmanDir ++ ["health"] ++ ["health-check-" ++ ts ++ ".json"]) (Node.file results) :=
          writeFileFS_ok_self fs1 _ results fs2 hns hw
        rw [hfs2, fsInsert_ne _ _ _ q hq2]
        exact mkdirAll_frame fs fs1 (cfg.dotmanDir ++ ["health"]) hmk q hq1
  refine ⟨key, ?_, ?_⟩
  · intro q hq
    obtain ⟨h1, h2⟩ := disjoint_store_branch cfg ts "configs" (by decide) q hq
    exact key q h1 h2
  · intro q hq
    obtain ⟨h1, h2⟩ := disjoint_store_branch cfg ts "backups" (by decide) q hq
    exact key q h1 h2

/-- C8 counterexample: before one HealthCheck run on an empty store there
is nothing at the snapshot path inside the store; afterwards a snapshot
file exists there, so the store is not identical before and after. -/
theorem healthCheck_writes_snapshot_cx :
    c8fs ((mkConfig ["h"]).dotmanDir ++ ["health"] ++ ["health-check-t.json"]) = none ∧
    healthCheckFS (mkConfig ["h"]) c8fs "t" (Content.bytes [])
      ((mkConfig ["h"]).dotmanDir ++ ["health"] ++ ["health-check-t.json"]) =
      some (Node.file (Content.bytes [])) := by decide

/-- C8 witness: a path outside the store is untouched by the run. -/
theorem healthCheck_frame_check :
    healthCheckFS (mkConfig ["h"]) c8fs "t" (Content.bytes []) ["other"] = c8fs ["other"] :=
  (healthCheck_frame (mkConfig ["h"]) c8fs "t" (Content.bytes []) (by decide)).1
    ["other"] (by decide) (by decide)

/-! C1: Link. -/

theorem joinPath_configs (home r : Path) (hhc : cleanAbs home = home) (hr : cleanRel r = true) :
    joinPath (home ++ [".dotman", "configs"]) r = home ++ ([".dotman", "configs"] ++ r) := by
  have hl : cleanRel ([".dotman", "configs"] ++ r) = true := by
    rw [cleanRel, List.all_append]
    rw [cleanRel] at hr
    rw [hr]
    decide
  unfold joinPath
  rw [List.append_assoc]
  exact cleanAbs_append_plain home ([".dotman", "configs"] ++ r) hhc hl

theorem symlinkFS_ok (fs fs2 : FS) (target p : Path) (h : symlinkFS fs target p = Except.ok fs2) :
    fs p = none ∧ fs2 = fsInsert fs p (Node.symlink target) := by
  rw [symlinkFS] at h
  rcases hfp : fs p with _ | n
  · rw [hfp] at h
    injection h with h2
    exact ⟨rfl, h2.symm⟩
  · rw [hfp] at h
    exact Except.noConfusion h

theorem linkOne_ok (cfg : Config) (fs fs2 : FS) (r : Path) (h : linkOne cfg fs r = Except.ok fs2) :
    ∃ fs1, mkdirAll fs (joinPath cfg.homeDir r).dropLast = Except.ok fs1 ∧
      fs2 = fsInsert (removeAllFS fs1 (joinPath cfg.homeDir r)) (joinPath cfg.homeDir r)
        (Node.symlink (joinPath cfg.configsDir r)) := by
  rw [linkOne] at h
  rcases hmk : mkdirAll fs (joinPath cfg.homeDir r).dropLast with e | fs1
  · rw [hmk] at h
    exact Except.noConfusion h
  · rw [hmk] at h
    have h2 : symlinkFS (removeAllFS fs1 (joinPath cfg.homeDir r)) (joinPath cfg.configsDir r)
        (joinPath cfg.homeDir r) = Except.ok fs2 := h
    exact ⟨fs1, rfl, (symlinkFS_ok _ fs2 _ _ h2).2⟩

theorem linkOne_pres (cfg : Config) (fs fs2 : FS) (b : Path) (h : linkOne cfg fs b = Except.ok fs2)
    (q : Path) (n : Node) (hq : fs q = some n)
    (hnp : ¬ (joinPath cfg.homeDir b <+: q)) : fs2 q = some n := by
  obtain ⟨fs1, hmk, hfs2⟩ := linkOne_ok cfg fs fs2 b h
  have h1 : fs1 q = some n := mkdirAll_pres fs fs1 _ hmk q n hq
  have hqne : q ≠ joinPath cfg.homeDir b := fun he => hnp (he ▸ ⟨[], by simp⟩)
  rw [hfs2, fsInsert_ne _ _ _ q hqne]
  show removeAllFS fs1 (joinPath cfg.homeDir b) q = some n
  simp only [removeAllFS]
  rw [if_neg hnp]
  exact h1

theorem link_fold_pres (cfg : Config) : ∀ (l : List Path) (fs fs2 : FS),
    List.foldlM (linkOne cfg) fs l = Except.ok fs2 →
    ∀ (q : Path) (n : Node), fs q = some n →
    (∀ b ∈ l, ¬ (joinPath cfg.homeDir b <+: q)) →
    fs2 q = some n := by
  intro l
  induction l with
  | nil =>
    intro fs fs2 h q n hq _
    simp only [List.foldlM] at h
    injection h with h2
    rw [← h2]
    exact hq
  | cons a rest ih =>
    intro fs fs2 h q n hq hb
    simp only [List.foldlM] at h
    obtain ⟨fsm, hm, h2⟩ := exceptBind_ok h
    exact ih fsm fs2 h2 q n
      (linkOne_pres cfg fs fsm a hm q n hq (hb a (by simp)))
      (fun b hbm => hb b (by simp [hbm]))

theorem link_fold_mem (cfg : Config) : ∀ (l : List Path) (fs fs2 : FS),
    List.foldlM (linkOne cfg) fs l = Except.ok fs2 →
    l.Pairwise (fun a b =>
      ¬ (joinPath cfg.homeDir a <+: joinPath cfg.homeDir b) ∧
      ¬ (joinPath cfg.homeDir b <+: joinPath cfg.homeDir a)) →
    ∀ r ∈ l, fs2 (joinPath cfg.homeDir r) = some (Node.symlink (joinPath cfg.configsDir r)) := by
  intro l
  induction l with
  | nil =>
    intro fs fs2 _ _ r hr
    exact absurd hr (List.not_mem_nil r)
  | cons a rest ih =>
    intro fs fs2 h hpw r hr
    simp only [List.foldlM] at h
    obtain ⟨fsm, hm, h2⟩ := exceptBind_ok h
    rw [List.pairwise_cons] at hpw
    obtain ⟨hpa, hprest⟩ := hpw
    rcases List.mem_cons.mp hr with rfl | hr2
    · obtain ⟨fs1, _, hfsm⟩ := linkOne_ok cfg fs fsm r hm
      have hsym : fsm (joinPath cfg.homeDir r) =
          some (Node.symlink (joinPath cfg.configsDir r)) := by
        rw [hfsm, fsInsert_self]
      exact link_fold_pres cfg rest fsm fs2 h2 _ _ hsym (fun b hbm => (hpa b hbm).2)
    · exact ih fsm fs2 h2 hprest r hr2

/-- C1: after a successful Link run, every tracked file's mirrored path
under the home root holds a symbolic link whose recorded target is exactly
the file's path inside the store (whatever occupied the mirrored path was
removed first).  The tracked relative paths come from a walk of the store
tree, so they have plain components and none is a prefix of another. -/
theorem link_creates_symlinks (home : Path) (hhc : cleanAbs home = home)
    (tracked : List Path) (hcl : ∀ r ∈ tracked, cleanRel r = true)
    (hpw : tracked.Pairwise (fun a b => ¬ (a <+: b) ∧ ¬ (b <+: a)))
    (fs fs2 : FS) (hlink : link (mkConfig home) fs tracked = Except.ok fs2)
    (r : Path) (hr : r ∈ tracked) :
    fs2 (home ++ r) = some (Node.symlink (home ++ ([".dotman", "configs"] ++ r))) := by
  have hjoin : ∀ x ∈ tracked, joinPath (mkConfig home).homeDir x = home ++ x := by
    intro x hx
    exact joinPath_plain home x hhc (hcl x hx)
  have hjoinc : joinPath (mkConfig home).configsDir r = home ++ ([".dotman", "configs"] ++ r) :=
    joinPath_configs home r hhc (hcl r hr)
  have hpw2 : tracked.Pairwise (fun a b =>
      ¬ (joinPath (mkConfig home).homeDir a <+: joinPath (mkConfig home).homeDir b) ∧
      ¬ (joinPath (mkConfig home).homeDir b <+: joinPath (mkConfig home).homeDir a)) := by
    refine hpw.imp_of_mem ?_
    intro a b ha hb hab
    rw [hjoin a ha, hjoin b hb]
    constructor
    · intro hcon
      exact hab.1 ((pfx_app_cancel home a b).mp hcon)
    · intro hcon
      exact hab.2 ((pfx_app_cancel home b a).mp hcon)
  have hmain := link_fold_mem (mkConfig home) tracked fs fs2 hlink hpw2 r hr
  rw [hjoin r hr, hjoinc] at hmain
  exact hmain

/-- C1 witness: linking the single tracked file a under home h produces a
symbolic link at h/a targeting h/.dotman/configs/a. -/
theorem link_creates_symlinks_check :
    link (mkConfig ["h"]) c1fs [["a"]] = Except.ok c1out ∧
    c1out (["h"] ++ ["a"]) = some (Node.symlink (["h"] ++ ([".dotman", "configs"] ++ ["a"]))) :=
  ⟨rfl,
   link_creates_symlinks ["h"] (by decide) [["a"]] (by decide)
     (List.pairwise_singleton _ _) c1fs c1out rfl ["a"] (by decide)⟩

/-! Lemmas about reads, writes and symlink resolution, used for the
backup and restore claims. -/

theorem not_pfx_of_longer {a b : Path} (h : b.length < a.length) : ¬ (a <+: b) :=
  fun hp => absurd (pfx_length_le hp) (by omega)

theorem app_singleton_ne (l : Path) (a b : String) (h : a ≠ b) : l ++ [a] ≠ l ++ [b] := by
  intro he
  have h2 := List.append_cancel_left he
  injection h2 with h3 _
  exact h h3

theorem fsInsert_erase (fs : FS) (p : Path) (n : Node) :
    fsInsert (fsErase fs p) p n = fsInsert fs p n := by
  funext q
  by_cases h : q = p
  · simp [fsInsert, fsErase, h]
  · simp [fsInsert, fsErase, h]

theorem statFS_not_link (fs : FS) (p : Path) (h : isSymlinkB (fs p) = false) :
    statFS fs p = fs p := by
  rw [statFS, show linkFuel = 39 + 1 from rfl, resolveFinal_not_link fs 39 p h]

theorem readFileFS_of_file (fs : FS) (p : Path) (c : Content) (h : fs p = some (Node.file c)) :
    readFileFS fs p = some c := by
  have hns : isSymlinkB (fs p) = false := by rw [h]; rfl
  rw [readFileFS, statFS_not_link fs p hns, h]

theorem resolveFinal_one_link (fs : FS) (p t : Path) (hp : fs p = some (Node.symlink t))
    (hns : isSymlinkB (fs t) = false) : resolveFinal fs linkFuel p = some t := by
  rw [show linkFuel = 39 + 1 from rfl]
  have h2 : resolveFinal fs (39 + 1) p = resolveFinal fs 39 t := by
    simp [resolveFinal, hp]
  rw [h2, show (39 : Nat) = 38 + 1 from rfl]
  exact resolveFinal_not_link fs 38 t hns

theorem statFS_one_link (fs : FS) (p t : Path) (hp : fs p = some (Node.symlink t))
    (hns : isSymlinkB (fs t) = false) : statFS fs p = fs t := by
  rw [statFS, resolveFinal_one_link fs p t hp hns]

theorem readFileFS_one_link (fs : FS) (p t : Path) (c : Content)
    (hp : fs p = some (Node.symlink t)) (ht : fs t = some (Node.file c)) :
    readFileFS fs p = some c := by
  have hns : isSymlinkB (fs t) = false := by rw [ht]; rfl
  rw [readFileFS, statFS_one_link fs p t hp hns, ht]

theorem writeFileFS_resolved (fs : FS) (p q : Path) (c : Content) (fs2 : FS)
    (hres : resolveFinal fs linkFuel p = some q)
    (h : writeFileFS fs p c = Except.ok fs2) : fs2 = fsInsert fs q (Node.file c) := by
  rw [writeFileFS, hres] at h
  by_cases hd : fs q = some Node.dir
  · simp [hd] at h
  · simp [hd] at h
    exact h.symm

/-- Inversion of a successful RestoreBackup run: the metadata is parsed,
the content bytes are read, the parent directories are created, the bytes
are written to the original path, and if a symlink target was recorded the
final state holds that symlink at the original path over the written
state. -/
theorem restoreBackup_ok (cfg : Config) (fs fs2 : FS) (backupID : String) (md : BackupMetadata)
    (hmeta : readFileFS fs (cfg.dotmanDir ++ ["backups", backupID] ++ ["metadata.json"]) =
      some (Content.meta md))
    (hr : restoreBackup cfg fs backupID = Except.ok fs2) :
    ∃ c fsd fse,
      readFileFS fs (cfg.dotmanDir ++ ["backups", backupID] ++ ["content"]) = some c ∧
      mkdirAll fs md.originalPath.dropLast = Except.ok fsd ∧
      writeFileFS fsd md.originalPath c = Except.ok fse ∧
      ((md.symlinkPath = none ∧ fs2 = fse) ∨
       (∃ t, md.symlinkPath = some t ∧
         fs2 = fsInsert fse md.originalPath (Node.symlink t))) := by
  simp only [restoreBackup, hmeta] at hr
  rcases hc : readFileFS fs (cfg.dotmanDir ++ ["backups", backupID] ++ ["content"]) with _ | c
  · rw [hc] at hr
    exact Except.noConfusion hr
  simp only [hc] at hr
  rcases hmk : mkdirAll fs md.originalPath.dropLast with e | fsd
  · rw [hmk] at hr
    exact Except.noConfusion hr
  simp only [hmk] at hr
  rcases hw : writeFileFS fsd md.originalPath c with e | fse
  · rw [hw] at hr
    exact Except.noConfusion hr
  simp only [hw] at hr
  refine ⟨c, fsd, fse, rfl, rfl, hw, ?_⟩
  rcases hsp : md.symlinkPath with _ | t
  · simp only [hsp] at hr
    exact Or.inl ⟨rfl, (Except.ok.inj hr).symm⟩
  · simp only [hsp] at hr
    refine Or.inr ⟨t, rfl, ?_⟩
    rcases hfse : fse md.originalPath with _ | nd
    · simp only [hfse] at hr
      exact (symlinkFS_ok fse fs2 t md.originalPath hr).2
    · cases nd with
      | dir =>
        simp only [hfse] at hr
        exact Except.noConfusion hr
      | file c2 =>
        simp only [hfse] at hr
        have h2 := (symlinkFS_ok (fsErase fse md.originalPath) fs2 t md.originalPath hr).2
        rw [h2, fsInsert_erase]
      | symlink t2 =>
        simp only [hfse] at hr
        have h2 := (symlinkFS_ok (fsErase fse md.originalPath) fs2 t md.originalPath hr).2
        rw [h2, fsInsert_erase]

/-! C10: restoring a symlink-backed backup. -/

/-- C10: for every backup whose metadata records a symlink target,
RestoreBackup ends with the original path holding solely a symbolic link to
the recorded target — the content written to that path during the restore
is removed before the symlink is created, so the stored content is not
materialized at that path. -/
theorem restore_symlink_final (cfg : Config) (fs fs2 : FS) (backupID : String)
    (md : BackupMetadata) (t : Path)
    (hmeta : readFileFS fs (cfg.dotmanDir ++ ["backups", backupID] ++ ["metadata.json"]) =
      some (Content.meta md))
    (hsym : md.symlinkPath = some t)
    (hr : restoreBackup cfg fs backupID = Except.ok fs2) :
    fs2 md.originalPath = some (Node.symlink t) := by
  obtain ⟨c, fsd, fse, _, _, _, hbr⟩ := restoreBackup_ok cfg fs fs2 backupID md hmeta hr
  rcases hbr with ⟨hnone, _⟩ | ⟨t2, hsome, hfs2⟩
  · rw [hnone] at hsym
    exact Option.noConfusion hsym
  · rw [hsym] at hsome
    have ht : t2 = t := (Option.some.inj hsome).symm
    rw [hfs2, ht, fsInsert_self]

/-- C10 witness: restoring the concrete symlink-backed backup leaves h/f a
symbolic link to the recorded target. -/
theorem restore_symlink_final_check :
    restoreBackup (mkConfig ["h"]) c10fs "1" = Except.ok c10out ∧
    c10out ["h", "f"] = some (Node.symlink ["h", ".dotman", "configs", "f"]) :=
  ⟨rfl,
   restore_symlink_final (mkConfig ["h"]) c10fs c10out "1" c10md
     ["h", ".dotman", "configs", "f"] (by decide) rfl rfl⟩

/-! C4: backup and restore round-trip. -/

/-- Inversion of a successful BackupFile run: the backups directory and the
per-backup directory are created, the source is read, the content artifact
is written, and the metadata artifact records the original path and the
symlink target exactly when the source path itself was a symlink. -/
theorem backupFile_ok (cfg : Config) (fs fs1 : FS) (id : String) (ts : Nat) (P : Path)
    (hb : backupFile cfg fs id ts P = Except.ok fs1) :
    ∃ fsa content fsb fsc,
      mkdirAll fs (cfg.dotmanDir ++ ["backups"]) = Except.ok fsa ∧
      readFileFS fsa P = some content ∧
      mkdirAll fsa (cfg.dotmanDir ++ ["backups", id]) = Except.ok fsb ∧
      writeFileFS fsb (cfg.dotmanDir ++ ["backups", id] ++ ["content"]) content = Except.ok fsc ∧
      ∃ symT,
        (∀ t0, fsa P = some (Node.symlink t0) → symT = some t0) ∧
        (isSymlinkB (fsa P) = false → symT = none) ∧
        writeFileFS fsc (cfg.dotmanDir ++ ["backups", id] ++ ["metadata.json"])
          (Content.meta ⟨id, P, symT, ts⟩) = Except.ok fs1 := by
  simp only [backupFile] at hb
  rcases hmkB : mkdirAll fs (cfg.dotmanDir ++ ["backups"]) with e | fsa
  · rw [hmkB] at hb
    exact Except.noConfusion hb
  simp only [hmkB] at hb
  rcases hread : readFileFS fsa P with _ | content
  · rw [hread] at hb
    exact Except.noConfusion hb
  simp only [hread] at hb
  rcases hmkD : mkdirAll fsa (cfg.dotmanDir ++ ["backups", id]) with e | fsb
  · rw [hmkD] at hb
    exact Except.noConfusion hb
  simp only [hmkD] at hb
  rcases hwC : writeFileFS fsb (cfg.dotmanDir ++ ["backups", id] ++ ["content"]) content with e | fsc
  · rw [hwC] at hb
    exact Except.noConfusion hb
  simp only [hwC] at hb
  refine ⟨fsa, content, fsb, fsc, rfl, hread, hmkD, hwC, ?_⟩
  rcases hfa : fsa P with _ | nd
  · refine ⟨none, ?_, fun _ => rfl, ?_⟩
    · intro t0 ht0
      exact Option.noConfusion ht0
    · simp only [hfa] at hb
      exact hb
  · cases nd with
    | file c2 =>
      refine ⟨none, ?_, fun _ => rfl, ?_⟩
      · intro t0 ht0
        exact Node.noConfusion (Option.some.inj ht0)
      · simp only [hfa] at hb
        exact hb
    | dir =>
      refine ⟨none, ?_, fun _ => rfl, ?_⟩
      · intro t0 ht0
        exact Node.noConfusion (Option.some.inj ht0)
      · simp only [hfa] at hb
        exact hb
    | symlink t0 =>
      refine ⟨some t0, ?_, ?_, ?_⟩
      · intro t1 ht1
        exact congrArg some (Node.symlink.inj (Option.some.inj ht1))
      · intro hns
        simp [isSymlinkB] at hns
      · simp only [hfa] at hb
        exact hb

/-- C4: for a path holding a regular file, or a symlink to a regular file,
an immediate BackupFile plus RestoreBackup round-trip restores the path to
the same readable bytes, preserves whether the path is a symlink, and for a
symlink recreates the recorded target.  The side hypotheses say the backup
artifact paths for this identifier are not symlinks and are distinct from
the file being backed up — the fresh timestamped directory of a real run. -/
theorem backup_restore_roundtrip (cfg : Config) (fs fs1 fs2 : FS) (id : String) (ts : Nat) (P : Path)
    (hb : backupFile cfg fs id ts P = Except.ok fs1)
    (hr : restoreBackup cfg fs1 id = Except.ok fs2)
    (hc1 : isSymlinkB (fs (cfg.dotmanDir ++ ["backups", id] ++ ["content"])) = false)
    (hc2 : isSymlinkB (fs (cfg.dotmanDir ++ ["backups", id] ++ ["metadata.json"])) = false)
    (hPc : P ≠ cfg.dotmanDir ++ ["backups", id] ++ ["content"])
    (hPm : P ≠ cfg.dotmanDir ++ ["backups", id] ++ ["metadata.json"])
    (hcase : (∃ c, fs P = some (Node.file c)) ∨
      (∃ t c, fs P = some (Node.symlink t) ∧ fs t = some (Node.file c) ∧ t ≠ P ∧
        t ≠ cfg.dotmanDir ++ ["backups", id] ++ ["content"] ∧
        t ≠ cfg.dotmanDir ++ ["backups", id] ++ ["metadata.json"])) :
    readFileFS fs2 P = readFileFS fs P ∧
    isSymlinkB (fs2 P) = isSymlinkB (fs P) ∧
    (∀ t, fs P = some (Node.symlink t) → fs2 P = some (Node.symlink t)) := by
  obtain ⟨fsa, content, fsb, fsc, hmkB, hread, hmkD, hwC, symT, hsymT1, hsymT2, hwM⟩ :=
    backupFile_ok cfg fs fs1 id ts P hb
  have hCB : ¬ (cfg.dotmanDir ++ ["backups", id] ++ ["content"] <+:
      cfg.dotmanDir ++ ["backups"]) := by
    apply not_pfx_of_longer
    simp only [List.length_append, List.length_cons, List.length_nil]
    omega
  have hMB : ¬ (cfg.dotmanDir ++ ["backups", id] ++ ["metadata.json"] <+:
      cfg.dotmanDir ++ ["backups"]) := by
    apply not_pfx_of_longer
    simp only [List.length_append, List.length_cons, List.length_nil]
    omega
  have hfsaC : fsa (cfg.dotmanDir ++ ["backups", id] ++ ["content"]) =
      fs (cfg.dotmanDir ++ ["backups", id] ++ ["content"]) :=
    mkdirAll_frame fs fsa _ hmkB _ hCB
  have hfsbC : fsb (cfg.dotmanDir ++ ["backups", id] ++ ["content"]) =
      fs (cfg.dotmanDir ++ ["backups", id] ++ ["content"]) := by
    rw [mkdirAll_frame fsa fsb _ hmkD _ (not_pfx_snoc _ "content"), hfsaC]
  have hnsC : isSymlinkB (fsb (cfg.dotmanDir ++ ["backups", id] ++ ["content"])) = false := by
    rw [hfsbC]
    exact hc1
  have hfsc : fsc = fsInsert fsb (cfg.dotmanDir ++ ["backups", id] ++ ["content"])
      (Node.file content) :=
    writeFileFS_ok_self fsb _ content fsc hnsC hwC
  have hMC : cfg.dotmanDir ++ ["backups", id] ++ ["metadata.json"] ≠
      cfg.dotmanDir ++ ["backups", id] ++ ["content"] :=
    app_singleton_ne _ "metadata.json" "content" (by decide)
  have hCM : cfg.dotmanDir ++ ["backups", id] ++ ["content"] ≠
      cfg.dotmanDir ++ ["backups", id] ++ ["metadata.json"] :=
    app_singleton_ne _ "content" "metadata.json" (by decide)
  have hfscM : fsc (cfg.dotmanDir ++ ["backups", id] ++ ["metadata.json"]) =
      fs (cfg.dotmanDir ++ ["backups", id] ++ ["metadata.json"]) := by
    rw [hfsc, fsInsert_ne _ _ _ _ hMC,
      mkdirAll_frame fsa fsb _ hmkD _ (not_pfx_snoc _ "metadata.json"),
      mkdirAll_frame fs fsa _ hmkB _ hMB]
  have hnsM : isSymlinkB (fsc (cfg.dotmanDir ++ ["backups", id] ++ ["metadata.json"])) = false := by
    rw [hfscM]
    exact hc2
  have hfs1 : fs1 = fsInsert fsc (cfg.dotmanDir ++ ["backups", id] ++ ["metadata.json"])
      (Node.file (Content.meta ⟨id, P, symT, ts⟩)) :=
    writeFileFS_ok_self fsc _ _ fs1 hnsM hwM
  have hfs1M : fs1 (cfg.dotmanDir ++ ["backups", id] ++ ["metadata.json"]) =
      some (Node.file (Content.meta ⟨id, P, symT, ts⟩)) := by
    rw [hfs1, fsInsert_self]
  have hfs1C : fs1 (cfg.dotmanDir ++ ["backups", id] ++ ["content"]) =
      some (Node.file content) := by
    rw [hfs1, fsInsert_ne _ _ _ _ hCM, hfsc, fsInsert_self]
  have hmetaRead : readFileFS fs1 (cfg.dotmanDir ++ ["backups", id] ++ ["metadata.json"]) =
      some (Content.meta ⟨id, P, symT, ts⟩) :=
    readFileFS_of_file fs1 _ _ hfs1M
  have hcread : readFileFS fs1 (cfg.dotmanDir ++ ["backups", id] ++ ["content"]) = some content :=
    readFileFS_of_file fs1 _ _ hfs1C
  obtain ⟨c2, fsd, fse, hcr2, hmkP, hwP, hbr⟩ :=
    restoreBackup_ok cfg fs1 fs2 id ⟨id, P, symT, ts⟩ hmetaRead hr
  rw [show (BackupMetadata.mk id P symT ts).originalPath = P from rfl] at hmkP hwP hbr
  rw [show (BackupMetadata.mk id P symT ts).symlinkPath = symT from rfl] at hbr
  have hc2c : c2 = content := by
    have h0 : some content = some c2 := hcread.symm.trans hcr2
    exact (Option.some.inj h0).symm
  rw [hc2c] at hwP
  rcases hcase with ⟨c, hPf⟩ | ⟨t, c, hPl, htf, htP, htc, htm⟩
  · have hfaP : fsa P = some (Node.file c) := mkdirAll_pres fs fsa _ hmkB P _ hPf
    have hcontent : content = c := by
      have h1 : readFileFS fsa P = some c := readFileFS_of_file fsa P c hfaP
      exact Option.some.inj (hread.symm.trans h1)
    have hsymTn : symT = none := hsymT2 (by rw [hfaP]; rfl)
    have hfs1P : fs1 P = some (Node.file c) := by
      rw [hfs1, fsInsert_ne _ _ _ _ hPm, hfsc, fsInsert_ne _ _ _ _ hPc]
      exact mkdirAll_pres fsa fsb _ hmkD P _ hfaP
    have hfsdP : fsd P = some (Node.file c) := mkdirAll_pres fs1 fsd _ hmkP P _ hfs1P
    have hnsdP : isSymlinkB (fsd P) = false := by rw [hfsdP]; rfl
    have hfse : fse = fsInsert fsd P (Node.file content) :=
      writeFileFS_ok_self fsd P content fse hnsdP hwP
    rcases hbr with ⟨_, hfs2⟩ | ⟨t0, hsome, _⟩
    · have hfs2P : fs2 P = some (Node.file c) := by
        rw [hfs2, hfse, fsInsert_self, hcontent]
      refine ⟨?_, ?_, ?_⟩
      · rw [readFileFS_of_file fs2 P c hfs2P, readFileFS_of_file fs P c hPf]
      · rw [hfs2P, hPf]
      · intro t0 ht0
        rw [hPf] at ht0
        exact Node.noConfusion (Option.some.inj ht0)
    · rw [hsymTn] at hsome
      exact Option.noConfusion hsome
  · have hfaP : fsa P = some (Node.symlink t) := mkdirAll_pres fs fsa _ hmkB P _ hPl
    have hfat : fsa t = some (Node.file c) := mkdirAll_pres fs fsa _ hmkB t _ htf
    have hcontent : content = c := by
      have h1 : readFileFS fsa P = some c := readFileFS_one_link fsa P t c hfaP hfat
      exact Option.some.inj (hread.symm.trans h1)
    have hsymTs : symT = some t := hsymT1 t hfaP
    have hfs1P : fs1 P = some (Node.symlink t) := by
      rw [hfs1, fsInsert_ne _ _ _ _ hPm, hfsc, fsInsert_ne _ _ _ _ hPc]
      exact mkdirAll_pres fsa fsb _ hmkD P _ hfaP
    have hfs1t : fs1 t = some (Node.file c) := by
      rw [hfs1, fsInsert_ne _ _ _ _ htm, hfsc, fsInsert_ne _ _ _ _ htc]
      exact mkdirAll_pres fsa fsb _ hmkD t _ hfat
    have hfsdP : fsd P = some (Node.symlink t) := mkdirAll_pres fs1 fsd _ hmkP P _ hfs1P
    have hfsdt : fsd t = some (Node.file c) := mkdirAll_pres fs1 fsd _ hmkP t _ hfs1t
    have hnsdt : isSymlinkB (fsd t) = false := by rw [hfsdt]; rfl
    have hresP : resolveFinal fsd linkFuel P = some t := resolveFinal_one_link fsd P t hfsdP hnsdt
    have hfse : fse = fsInsert fsd t (Node.file content) :=
      writeFileFS_resolved fsd P t content fse hresP hwP
    rcases hbr with ⟨hnone, _⟩ | ⟨t0, hsome, hfs2⟩
    · rw [hsymTs] at hnone
      exact Option.noConfusion hnone
    · rw [hsymTs] at hsome
      have ht0 : t0 = t := (Option.some.inj hsome).symm
      rw [ht0] at hfs2
      have hfs2P : fs2 P = some (Node.symlink t) := by
        rw [hfs2, fsInsert_self]
      have hfs2t : fs2 t = some (Node.file c) := by
        rw [hfs2, fsInsert_ne _ _ _ _ htP, hfse, fsInsert_self, hcontent]
      refine ⟨?_, ?_, ?_⟩
      · rw [readFileFS_one_link fs2 P t c hfs2P hfs2t, readFileFS_one_link fs P t c hPl htf]
      · rw [hfs2P, hPl]
      · intro t1 ht1
        rw [hPl] at ht1
        have ht1t : t1 = t := (Node.symlink.inj (Option.some.inj ht1)).symm
        rw [ht1t]
        exact hfs2P

/-- C4 witness: backing up and restoring the regular file h/f leaves it
byte-identical and a non-symlink, through the concrete run. -/
theorem backup_restore_roundtrip_check :
    backupFile (mkConfig ["h"]) c4fs "1" 0 ["h", "f"] = Except.ok c4mid ∧
    restoreBackup (mkConfig ["h"]) c4mid "1" = Except.ok c4out ∧
    readFileFS c4out ["h", "f"] = readFileFS c4fs ["h", "f"] ∧
    isSymlinkB (c4out ["h", "f"]) = isSymlinkB (c4fs ["h", "f"]) := by
  refine ⟨rfl, rfl, ?_, ?_⟩
  · exact (backup_restore_roundtrip (mkConfig ["h"]) c4fs c4mid c4out "1" 0 ["h", "f"]
      rfl rfl (by decide) (by decide) (by decide) (by decide)
      (Or.inl ⟨Content.bytes [5], by decide⟩)).1
  · exact (backup_restore_roundtrip (mkConfig ["h"]) c4fs c4mid c4out "1" 0 ["h", "f"]
      rfl rfl (by decide) (by decide) (by decide) (by decide)
      (Or.inl ⟨Content.bytes [5], by decide⟩)).2.1

end CliConfigManager
